import Mathlib

/-!
Verification development for the HiSPARC event-processing core
(analysis/process_events.py).  Python code is shallowly embedded:
machine integers become Int, floating point numbers become Rat
(the float literals 2.5e-9, 1e9 and the kernel value 0.2 are modelled
by the exact rationals they denote), python None/NaN sentinels become
Option, and exceptions become error constructors.  Python 2 integer
division (used on numpy integer arrays) is modelled by Int.fdiv.
-/

namespace Sapphire

/-- ADC_THRESHOLD = 20 (module constant). -/
def ADC_THRESHOLD : ℤ := 20

/-- ADC_TIME_PER_SAMPLE = 2.5e-9 (module constant). -/
def ADC_TIME_PER_SAMPLE : ℚ := 2.5e-9

/-! ### Trace decoder (ProcessEvents._get_trace, post-decompression part)

The zlib decompression itself is an external collaborator (the spec
excludes compressed-blob storage); the decoder logic modelled here is
what _get_trace does with the decompressed byte string: split on the
comma, drop a single trailing empty field, convert fields to integers.
Python int() raising ValueError on a malformed field is modelled by
Option (none = DecodeError). -/

/-- str.split on a single comma separator, python semantics: the
fields between the separators, in order, empty fields included (the
empty string yields one empty field). -/
def splitComma : List Char → List (List Char)
  | [] => [[]]
  | c :: rest =>
    if c = ',' then [] :: splitComma rest
    else
      match splitComma rest with
      | f :: fs => (c :: f) :: fs
      | [] => [[c]]

/-- python int() on one field, for the canonical decimal forms the
encoder emits: an optional minus sign followed by at least one digit
(surrounding whitespace, a plus sign and underscores, which python
also accepts, do not occur in stored traces and are not modelled). -/
def pyDigits : List Char → Option ℕ → Option ℕ
  | [], acc => acc
  | c :: rest, acc =>
    if '0' ≤ c ∧ c ≤ '9' then
      pyDigits rest (some ((acc.getD 0) * 10 + (c.toNat - Char.toNat '0')))
    else none

def pyInt : List Char → Option ℤ
  | '-' :: rest => (pyDigits rest none).map (fun (n : ℕ) => -(n : ℤ))
  | s => (pyDigits s none).map (fun (n : ℕ) => (n : ℤ))

/-- The `if trace[-1] == '': del trace[-1]` step. -/
def dropTrailingEmpty (t : List (List Char)) : List (List Char) :=
  if t.getLast? = some [] then t.dropLast else t

/-- Embedding of _get_trace applied to the decompressed blob string. -/
def get_trace (s : String) : Option (List ℤ) :=
  (dropTrailingEmpty (splitComma s.data)).mapM pyInt

/-! ### Arrival-time reconstruction -/

/-- The scan loop shared by both strategies: index of the first sample
that is at or above the threshold (none when the loop never breaks,
i.e. the python value stays NaN). -/
def firstCrossing (threshold : ℤ) : List ℤ → Option ℕ
  | [] => none
  | t :: ts =>
    if threshold ≤ t then some 0
    else (firstCrossing threshold ts).map (· + 1)

/-- ProcessEvents._reconstruct_time_from_trace (nearest-sample strategy).
NaN is modelled as none; on a crossing at index i the python code
returns i * ADC_TIME_PER_SAMPLE. -/
def reconstruct_time_from_trace (trace : List ℤ) (baseline : ℤ) : Option ℚ :=
  (firstCrossing (baseline + ADC_THRESHOLD) trace).map
    (fun (i : ℕ) => (i : ℚ) * ADC_TIME_PER_SAMPLE)

/-- ProcessEventsWithLINT._reconstruct_time_from_trace (linear
interpolation).  The python index x0 = i - 1 is -1 when i = 0, and
trace[-1] is the last sample (python negative indexing); both are
reproduced.  The degenerate division y1 = y0 (a float infinity in the
source, flagged there by a FIXME) falls outside every claim treated
here; Rat division by zero gives 0 instead. -/
def reconstruct_time_from_trace_lint (trace : List ℤ) (baseline : ℤ) : Option ℚ :=
  let threshold := baseline + ADC_THRESHOLD
  match firstCrossing threshold trace with
  | none => none
  | some i =>
    let y1 : ℚ := (trace.getD i 0 : ℤ)
    let y0 : ℚ :=
      if i = 0 then (trace.getD (trace.length - 1) 0 : ℤ)
      else (trace.getD (i - 1) 0 : ℤ)
    some ((((threshold : ℚ) - y0) / (y1 - y0) + ((i : ℚ) - 1)) * ADC_TIME_PER_SAMPLE)

/-! ### Per-event driver (ProcessEvents._reconstruct_time_from_traces)

The driver zips baseline, pulseheights and traces of one event row and
decodes a trace only in the else-branch of the pulseheight guard.  The
blob store together with _get_trace is abstracted into a function
traceOf from blob index to decoded waveform, so that which indices get
decoded can be reasoned about. -/

structure HEvent where
  baseline : List ℤ
  pulseheights : List ℤ
  traces : List ℤ
deriving DecidableEq, Repr, Inhabited

def zip3 (a b c : List ℤ) : List (ℤ × ℤ × ℤ) := a.zip (b.zip c)

/-- Embedding of _reconstruct_time_from_traces for one event. -/
def reconstruct_time_from_traces (traceOf : ℤ → List ℤ) (ev : HEvent) :
    List (Option ℚ) :=
  (zip3 ev.baseline ev.pulseheights ev.traces).map
    (fun s =>
      if s.2.1 < ADC_THRESHOLD then none
      else reconstruct_time_from_trace (traceOf s.2.2) s.1)

/-- The blob indices the driver passes to _get_trace (the else-branch
of the pulseheight guard), read off from the same zipped slots. -/
def requested_trace_indices (ev : HEvent) : List ℤ :=
  (zip3 ev.baseline ev.pulseheights ev.traces).filterMap
    (fun s => if s.2.1 < ADC_THRESHOLD then none else some s.2.2)

/-- _process_traces_from_event_list per-row postlude: NaN becomes -999,
finite times are scaled to nanoseconds (1e9 * t). -/
def storedTimings (traceOf : ℤ → List ℤ) (ev : HEvent) : List ℚ :=
  (reconstruct_time_from_traces traceOf ev).map
    (fun o => match o with
      | none => -999
      | some v => 1e9 * v)

/-! ### MIP calibration (ProcessEvents._pulse_gauss_fit and helpers)

The histogram occurrences are numpy integer arrays, so the python 2
divisions in smooth_forward and in the weighted average are integer
floor divisions (Int.fdiv).  scipy.optimize.leastsq is an external
numerical collaborator and is abstracted into an oracle parameter of
type Lsq; everything that happens before the oracle is consulted is
embedded exactly. -/

/-- np.histogram counts over explicit bin edges: each bin is half-open,
the last bin also includes its right edge. -/
def npHistogram (data : List ℤ) (edges : List ℤ) : List ℤ :=
  let nb := edges.length - 1
  (List.range nb).map
    (fun j =>
      let lo := edges.getD j 0
      let hi := edges.getD (j + 1) 0
      let lastBin := j = nb - 1
      ((data.countP
        (fun v => lo ≤ v ∧ (v < hi ∨ (lastBin ∧ v = hi)))) : ℤ))

/-- pulsecount = (bins[:-1] + bins[1:]) / 2 on integer bin edges
(python 2 integer division). -/
def binMidpoints (edges : List ℤ) : List ℤ :=
  List.zipWith (fun a b => (a + b).fdiv 2) edges.dropLast edges.tail

/-- np.arange(lo, hi, step) on integers. -/
def npArange (lo hi step : ℤ) : List ℤ :=
  (List.range (((hi - lo).toNat + step.toNat - 1) / step.toNat)).map
    (fun k => lo + step * (k : ℤ))

/-- ProcessEvents.smooth_forward: moving window of n, python 2 integer
division on the numpy integer occurrences. -/
def smooth_forward (y : List ℤ) (n : ℕ) : List ℤ :=
  (List.range (y.length - n)).map
    (fun i => (((y.drop i).take n).sum).fdiv (n : ℤ))

/-- The zeroing step of getFitParameters right after smooth_forward.
In the source the assignment sits OUTSIDE the scanning loop, so only
the single element at the loop exit index is zeroed: the first index
whose pulse value exceeds 120, or the last smoothed index when the
loop runs out.  (With an empty smoothed list the python code would
raise NameError; that case is outside every claim.) -/
def cut_smoothed (x : List ℤ) (ys : List ℤ) : List ℤ :=
  let m := ys.length
  let j := (x.take m).findIdx (fun v => 120 < v)
  let i := if j = m then m - 1 else j
  ys.set i 0

/-- reshape(len/2, 2).mean(axis=1): means of adjacent pairs, a trailing
unpaired element is dropped (the callers pad to even length first). -/
def pairMeans : List ℚ → List ℚ
  | a :: b :: rest => (a + b) / 2 :: pairMeans rest
  | _ => []

/-- np.diff. -/
def npDiff (l : List ℚ) : List ℚ :=
  List.zipWith (fun a b => b - a) l l.tail

/-- The derivative zeroing loop of getFitParameters: zero y_diff at
every index until the first rebinned x above 120 (where the loop
breaks). -/
def zeroBelowCut (xr : List ℚ) (yd : List ℚ) : List ℚ :=
  let k := (xr.take yd.length).findIdx (fun v => 120 < v)
  List.replicate (min k yd.length) 0 ++ yd.drop k

/-- np.convolve(v, [0.2, 0.2, 0.2, 0.2, 0.2], "same"): centred windowed
sum scaled by 1/5, zero padded at the borders. -/
def convolveSame5 (v : List ℚ) : List ℚ :=
  let g : ℤ → ℚ := fun j => if 0 ≤ j ∧ j.toNat < v.length then v.getD j.toNat 0 else 0
  (List.range v.length).map
    (fun i => (1 / 5) * (g ((i : ℤ) - 2) + g ((i : ℤ) - 1) + g (i : ℤ) + g ((i : ℤ) + 1) + g ((i : ℤ) + 2)))

/-- The loop body of findBinNextMinimum.  Reading past the end of the
list (the python loop bound is len(y)+1, an IndexError waiting to
happen) is modelled by none; the fuel is chosen so that it never runs
out before that read. -/
def scanNextMin (y : List ℚ) : ℕ → ℕ → ℚ → Option ℕ
  | 0, _, _ => none
  | fuel + 1, i, minY =>
    match y.get? i with
    | none => none
    | some c =>
      if c < minY then scanNextMin y fuel (i + 1) c
      else if minY < c then some (i - 1)
      else scanNextMin y fuel (i + 1) minY

/-- ProcessEvents.findBinNextMinimum. -/
def findBinNextMinimum (y : List ℚ) (startBin : ℕ) : Option ℕ :=
  match y.get? startBin with
  | none => none
  | some m => scanNextMin y (y.length + 1 - startBin) startBin m

/-- The loop body of findBinNextMaximum (mirror image of the minimum
scan). -/
def scanNextMax (y : List ℚ) : ℕ → ℕ → ℚ → Option ℕ
  | 0, _, _ => none
  | fuel + 1, i, maxY =>
    match y.get? i with
    | none => none
    | some c =>
      if maxY < c then scanNextMax y fuel (i + 1) c
      else if c < maxY then some (i - 1)
      else scanNextMax y fuel (i + 1) maxY

/-- ProcessEvents.findBinNextMaximum. -/
def findBinNextMaximum (y : List ℚ) (startBin : ℕ) : Option ℕ :=
  match y.get? startBin with
  | none => none
  | some m => scanNextMax y (y.length + 1 - startBin) startBin m

/-- ProcessEvents.getFitParameters.  Returns (peak, minRange, maxRange);
none models the crash that follows when one of the scans walks off the
end of the derivative (IndexError / indexing with None). -/
def getFitParameters (x : List ℤ) (y : List ℤ) : Option (ℚ × ℚ × ℚ) :=
  let bias : ℚ := ((x.getD 1 0 - x.getD 0 0 : ℤ) : ℚ) * 2
  let xr0 := x
  let xr1 := if xr0.length % 2 = 1 then
      xr0 ++ [x.getD (x.length - 1) 0 + x.getD 1 0 - x.getD 0 0]
    else xr0
  let x_rebinned : List ℚ := pairMeans (xr1.map (fun v => (v : ℚ)))
  let ys1 := cut_smoothed x (smooth_forward y 5)
  let ys2 : List ℚ := ys1.map (fun v => (v : ℚ))
  let ys3 := if ys2.length % 2 = 1 then ys2 ++ [0] else ys2
  let y_smoothed_rebinned := (pairMeans ys3).map (fun v => 2 * v)
  let y_diff := npDiff y_smoothed_rebinned
  let y_diff2 := zeroBelowCut x_rebinned y_diff
  let yds := convolveSame5 y_diff2
  (findBinNextMinimum yds 0).bind (fun b1 =>
    (findBinNextMaximum yds b1).bind (fun b2 =>
      (findBinNextMinimum yds b2).map (fun b3 =>
        let maxX := x_rebinned.getD b2 0
        let minX := x_rebinned.getD b3 0
        ((maxX + minX) / 2 + bias, maxX + bias, minX + bias))))

/-- The scipy.optimize.leastsq collaborator: initial (N, mean, width),
window x values, window y values; returns fitted parameters and a
covariance matrix. -/
abbrev Lsq := (ℚ × ℚ × ℚ) → List ℚ → List ℚ → (ℚ × ℚ × ℚ) × List (List ℚ)

/-- Result of _pulse_gauss_fit.  mpvs is the documented return value (a
list with one mpv per detector); earlyNarrow is the value actually
returned by the width <= 40 branch, a (width, [zeros(3), zeros((3,3))],
-1) tuple that abandons the remaining detectors; avgError is the
ValueError raise; scanError is the crash propagated out of
getFitParameters. -/
inductive FitOutcome
  | mpvs (l : List ℚ)
  | earlyNarrow (width : ℚ) (fitParameters : List ℚ)
      (fitCovariance : List (List ℚ)) (chiSquare : ℚ)
  | avgError
  | scanError
deriving DecidableEq, Repr

/-- What one iteration of the _pulse_gauss_fit detector loop decides
before scipy is ever consulted: raise the ValueError, crash in the
scans, take the width <= 40 early return, or hand a fit window to
leastsq.  Everything here is oracle-free. -/
inductive DetectorFitStep
  | avgErr
  | scanErr
  | narrow (width : ℚ)
  | window (peak width : ℚ) (xs ys : List ℚ)
deriving DecidableEq, Repr

/-- The oracle-free prefix of one iteration of the _pulse_gauss_fit
loop over detector column i. -/
def detector_fit_step (rows : List (List ℤ)) (edges : List ℤ) (i : ℕ) :
    DetectorFitStep :=
  let col := rows.map (fun r => r.getD i 0)
  let occurence := npHistogram col edges
  let pulsecount := binMidpoints edges
  let avg : ℤ := ((List.zipWith (· * ·) pulsecount occurence).sum).fdiv occurence.sum
  if avg < 100 then .avgErr
  else
    match getFitParameters pulsecount occurence with
    | none => .scanErr
    | some fp =>
      let peak := fp.1
      let minRange := fp.2.1
      let maxRange := fp.2.2
      let width := peak - minRange
      if width ≤ 40 then .narrow width
      else
        let window := (List.zip pulsecount occurence).filter
          (fun p => minRange ≤ (p.1 : ℚ) ∧ (p.1 : ℚ) ≤ maxRange)
        .window peak width
          (window.map (fun p => ((p.1 : ℤ) : ℚ)))
          (window.map (fun p => ((p.2 : ℤ) : ℚ)))

/-- The per-detector loop of _pulse_gauss_fit.  Note that the
width <= 40 branch RETURNS from the whole loop (the python return
statement sits inside the for loop), so the remaining detectors in
rest are abandoned. -/
def pulse_gauss_fit_go (lsq : Lsq) (rows : List (List ℤ)) (edges : List ℤ) :
    List ℕ → List ℚ → FitOutcome
  | [], acc => .mpvs acc.reverse
  | i :: rest, acc =>
    match detector_fit_step rows edges i with
    | .avgErr => .avgError
    | .scanErr => .scanError
    | .narrow width =>
      .earlyNarrow width [0, 0, 0] [[0, 0, 0], [0, 0, 0], [0, 0, 0]] (-1)
    | .window peak width xs ys =>
      pulse_gauss_fit_go lsq rows edges rest ((lsq (16, peak, width) xs ys).1.2.1 :: acc)

/-- ProcessEvents._pulse_gauss_fit: loops over the detector columns of
the 2D pulsecounts array (range(len(pulsecounts[0]))). -/
def pulse_gauss_fit (lsq : Lsq) (rows : List (List ℤ)) (edges : List ℤ) :
    FitOutcome :=
  pulse_gauss_fit_go lsq rows edges (List.range (rows.getD 0 []).length) []

/-! ### Batch pipeline, row level

Models steps 2-5 of process_and_store_results for ProcessEvents and
for ProcessIndexedEvents: staging table creation with one default row
per copied source row, the columnwise write of the four timing columns
(respectively the row-level updates through table.itersequence in the
indexed subclass), and the columnwise write of the four particle-count
columns shared by both classes.  The default contents of the derived
columns come from the ProcessedHisparcEvent description in
sapphire/storage.py, which is not part of this source tree, so they
are carried as parameters td / nd. -/

/-- A python slice [:limit] with limit possibly None. -/
def pytake {α : Type} (limit : Option ℕ) (l : List α) : List α :=
  match limit with
  | none => l
  | some k => l.take k

/-- One row of the results table: the copied source columns plus the
derived t1..t4 and n1..n4 columns. -/
structure ResultRow where
  ev : HEvent
  t : List ℚ
  n : List ℚ
deriving DecidableEq, Repr, Inhabited

/-- Row-level update of the timing columns of one row (the
event.update() path used by ProcessIndexedEvents). -/
def setRowT : List ResultRow → ℕ → List ℚ → List ResultRow
  | [], _, _ => []
  | r :: rs, 0, tv => { r with t := tv } :: rs
  | r :: rs, j + 1, tv => r :: setRowT rs j tv

/-- ProcessEvents._process_pulseheights: histogram the full population
over np.arange(0, 5000, 10), fit, divide pulseheights by the
per-detector mpv.  none models the crash when _pulse_gauss_fit does
not return the documented mpv list (ValueError, scan crash, or the
width <= 40 early-return tuple, on which the division would fail). -/
def process_pulseheights (lsq : Lsq) (source : List HEvent) :
    Option (List (List ℚ)) :=
  let pulseheights := source.map (fun e => e.pulseheights)
  match pulse_gauss_fit lsq pulseheights (npArange 0 5000 10) with
  | .mpvs mpv =>
    some (pulseheights.map (fun row => List.zipWith (fun p m => ((p : ℤ) : ℚ) / m) row mpv))
  | _ => none

/-- Steps 2-5 of process_and_store_results for the base class: staging
rows copied from the source (truncated by limit), timing columns
written columnwise from process_traces, count columns written
columnwise from _process_pulseheights. -/
def results_table_full (lsq : Lsq) (traceOf : ℤ → List ℤ) (events : List HEvent)
    (limit : Option ℕ) (td nd : List ℚ) : Option (List ResultRow) :=
  let src := pytake limit events
  let staging := src.map (fun e => ResultRow.mk e td nd)
  let timings := src.map (storedTimings traceOf)
  let tbl1 := List.zipWith (fun r tv => { r with t := tv }) staging timings
  (process_pulseheights lsq src).map
    (fun nvals => List.zipWith (fun r nv => { r with n := nv }) tbl1 nvals)

/-- Steps 2-5 for ProcessIndexedEvents: the staging table is created
and copied exactly as in the base class (same inherited methods), the
timing columns are then updated row by row only at the caller-supplied
indexes (source.itersequence / table.itersequence), and the count
columns are written columnwise by the same inherited
_store_number_of_particles. -/
def results_table_indexed (lsq : Lsq) (traceOf : ℤ → List ℤ) (events : List HEvent)
    (indexes : List ℕ) (limit : Option ℕ) (td nd : List ℚ) : Option (List ResultRow) :=
  let src := pytake limit events
  let staging := src.map (fun e => ResultRow.mk e td nd)
  let timings := indexes.map (fun j => storedTimings traceOf (events.getD j default))
  let tbl1 := (List.zip indexes timings).foldl (fun tbl p => setRowT tbl p.1 p.2) staging
  (process_pulseheights lsq src).map
    (fun nvals => List.zipWith (fun r nv => { r with n := nv }) tbl1 nvals)

/-! ### Batch pipeline, table-name level

The pytables group is modelled as an association list from node name
to an abstract table identity (a number standing for the table and its
contents; every operation of the pipeline either preserves a table
identity or destroys it, which is exactly what the naming claims are
about).  A ProcessEvents instance carries the group and the name of
its source table (self.source is re-bound when the source is renamed,
so the name is part of the state). -/

abbrev Group := List (String × ℕ)

/-- name in group (pytables name-based membership test). -/
def containsT : Group → String → Bool
  | [], _ => false
  | p :: rest, n => p.1 = n || containsT rest n

/-- The table identity currently registered under a name. -/
def lookupT : Group → String → Option ℕ
  | [], _ => none
  | p :: rest, n => if p.1 = n then some p.2 else lookupT rest n

/-- data.removeNode(group, name). -/
def removeNodeT : Group → String → Group
  | [], _ => []
  | p :: rest, n => if p.1 = n then removeNodeT rest n else p :: removeNodeT rest n

/-- node.rename(new) applied to the node currently named old. -/
def renameT : Group → String → String → Group
  | [], _, _ => []
  | p :: rest, old, new =>
    (if p.1 = old then (new, p.2) else p) :: renameT rest old new

/-- data.createTable(group, name, ...): appends a fresh table. -/
def createT (g : Group) (n : String) (tid : ℕ) : Group := g ++ [(n, tid)]

structure PState where
  group : Group
  srcName : String
deriving DecidableEq, Repr

/-- ProcessEvents._get_source name resolution: an unset source falls
back to the reserved table when it exists and to the default name
otherwise. -/
def get_source (g : Group) (source : Option String) : String :=
  match source with
  | none => if containsT g "_events" then "_events" else "events"
  | some n => n

/-- Outcome of one process_and_store_results call: ok carries the new
state, err carries the state at the moment of the raise together with
the error kind. -/
inductive RunResult
  | ok (s : PState)
  | err (s : PState) (msg : String)
deriving DecidableEq, Repr

/-- ProcessEvents.process_and_store_results over the name-level state:
_check_destination, staging table creation (_create_results_table,
which first drops a stale _t_events), the reconstruction steps 4-5
whose data-dependent success is abstracted into the reconOk flag (on
failure the python exception propagates with only the staging table
touched), and _move_results_table_into_destination. -/
def process_and_store_results (s : PState) (destination : Option String)
    (overwrite : Bool) (freshId : ℕ) (reconOk : Bool) : RunResult :=
  if destination = some "_events" then
    .err s "RuntimeError: the _events table is reserved for internal use"
  else
    let dest := destination.getD "events"
    if s.srcName ≠ dest ∧ containsT s.group dest ∧ overwrite = false then
      .err s "RuntimeError: I will not overwrite previous results"
    else
      let g1 := createT (removeNodeT s.group "_t_events") "_t_events" freshId
      if reconOk = false then .err { group := g1, srcName := s.srcName } "ReconstructionError"
      else
        let s2 : PState :=
          if s.srcName = "events" then
            { group := renameT g1 "events" "_events", srcName := "_events" }
          else { group := g1, srcName := s.srcName }
        let g3 := if containsT s2.group dest then removeNodeT s2.group dest else s2.group
        .ok { group := renameT g3 "_t_events" dest, srcName := s2.srcName }

/-! ### Concrete inputs used by the claim theorems -/

/-- A per-detector pulseheight population whose histogram produces a
peak window of width 30 (at most 40): the narrow-width branch input. -/
def dataC3 : List ℤ :=
  List.replicate 5 135 ++ List.replicate 15 155 ++ List.replicate 5 165 ++
  List.replicate 5 185 ++ List.replicate 5 205 ++ List.replicate 5 225 ++
  List.replicate 5 245 ++ List.replicate 15 265 ++ List.replicate 5 275

/-- 65 event rows, all four detectors carrying the narrow population. -/
def rowsC3 : List (List ℤ) := dataC3.map (fun v => [v, v, v, v])

/-- The 10-row source of the index-subset claim: five events with all
four pulseheights 145 and five with 155 (no traces recorded, baseline
zero); the per-detector population 5 x 145 + 5 x 155 passes the whole
calibration pipeline with a fit window of width 50. -/
def eventsC2 : List HEvent :=
  List.replicate 5 (HEvent.mk [0, 0, 0, 0] [145, 145, 145, 145] [-1, -1, -1, -1]) ++
  List.replicate 5 (HEvent.mk [0, 0, 0, 0] [155, 155, 155, 155] [-1, -1, -1, -1])

/-- A concrete leastsq oracle (returns its initial guess). -/
def lsqC2 : Lsq := fun init _ _ => (init, [[0, 0, 0], [0, 0, 0], [0, 0, 0]])

/-- A blob store on which every waveform is empty. -/
def traceOfC2 : ℤ → List ℤ := fun _ => []

/-! ### Helper lemmas -/

theorem lookupT_removeNodeT_ne (m n : String) (h : n ≠ m) :
    ∀ g : Group, lookupT (removeNodeT g m) n = lookupT g n := by
  intro g
  induction g with
  | nil => rfl
  | cons p rest ih =>
    by_cases hp : p.1 = m
    · have hmn : ¬m = n := fun e => h e.symm
      simp only [removeNodeT, hp, if_true, lookupT, hmn, if_false, ih]
    · simp only [removeNodeT, hp, if_false, lookupT]
      by_cases hn : p.1 = n
      · simp only [hn, if_true]
      · simp only [hn, if_false, ih]

theorem lookupT_createT_ne (m n : String) (tid : ℕ) (h : n ≠ m) :
    ∀ g : Group, lookupT (createT g m tid) n = lookupT g n := by
  intro g
  induction g with
  | nil =>
    have : ¬m = n := fun e => h e.symm
    simp only [createT, List.nil_append, lookupT, this, if_false]
  | cons p rest ih =>
    simp only [createT, List.cons_append, lookupT]
    by_cases hn : p.1 = n
    · simp only [hn, if_true]
    · simp only [hn, if_false]
      exact ih

theorem get?_zipWith_eq_some {α β γ : Type} (f : α → β → γ) :
    ∀ (as : List α) (bs : List β) (j : ℕ) (a : α) (b : β),
      as.get? j = some a → bs.get? j = some b →
      (List.zipWith f as bs).get? j = some (f a b)
  | a0 :: as, b0 :: bs, 0, a, b, h1, h2 => by
    simp only [List.get?] at h1 h2
    cases h1
    cases h2
    rfl
  | a0 :: as, b0 :: bs, j + 1, a, b, h1, h2 => by
    simp only [List.get?] at h1 h2
    simpa only [List.zipWith, List.get?] using
      get?_zipWith_eq_some f as bs j a b h1 h2
  | [], _, _, _, _, h1, _ => by simp at h1
  | _ :: _, [], _, _, _, _, h2 => by simp at h2

theorem firstCrossing_eq_some (θ : ℤ) :
    ∀ (l : List ℤ) (i : ℕ), i < l.length → θ ≤ l.getD i 0 →
      (∀ j, j < i → l.getD j 0 < θ) → firstCrossing θ l = some i
  | t :: ts, i, hi, hcross, hbefore => by
    by_cases ht : θ ≤ t
    · have hi0 : i = 0 := by
        by_contra hne
        have h0 := hbefore 0 (Nat.pos_of_ne_zero hne)
        simp only [List.getD, List.get?, Option.getD_some] at h0
        omega
      subst hi0
      simp only [firstCrossing, ht, if_true]
    · have hi0 : i ≠ 0 := by
        intro e
        subst e
        simp only [List.getD, List.get?, Option.getD_some] at hcross
        omega
      obtain ⟨i', rfl⟩ := Nat.exists_eq_succ_of_ne_zero hi0
      have hrec : firstCrossing θ ts = some i' := by
        apply firstCrossing_eq_some θ ts i'
        · simpa [Nat.succ_lt_succ_iff] using hi
        · simpa only [List.getD, List.get?] using hcross
        · intro j hj
          have := hbefore (j + 1) (Nat.succ_lt_succ hj)
          simpa only [List.getD, List.get?] using this
      simp only [firstCrossing, ht, if_false, hrec]
      rfl
  | [], i, hi, _, _ => by simp at hi

theorem firstCrossing_eq_none (θ : ℤ) :
    ∀ l : List ℤ, (∀ x ∈ l, x < θ) → firstCrossing θ l = none
  | [], _ => rfl
  | t :: ts, h => by
    have ht : ¬θ ≤ t := by
      have := h t (List.mem_cons_self t ts)
      omega
    have hrec := firstCrossing_eq_none θ ts (fun x hx => h x (List.mem_cons_of_mem t hx))
    simp only [firstCrossing, ht, if_false, hrec]
    rfl

theorem findIdx_eq_of_first {p : ℤ → Bool} :
    ∀ (l : List ℤ) (i : ℕ), i < l.length → p (l.getD i 0) = true →
      (∀ j, j < i → p (l.getD j 0) = false) → l.findIdx p = i
  | t :: ts, 0, _, hp, _ => by
    simp only [List.getD, List.get?, Option.getD_some] at hp
    simp [List.findIdx_cons, hp]
  | t :: ts, i + 1, hi, hp, hbefore => by
    have ht : p t = false := by
      have := hbefore 0 (Nat.succ_pos i)
      simpa only [List.getD, List.get?, Option.getD_some] using this
    have hrec : ts.findIdx p = i := by
      apply findIdx_eq_of_first ts i
      · simpa [Nat.succ_lt_succ_iff] using hi
      · simpa only [List.getD, List.get?] using hp
      · intro j hj
        have := hbefore (j + 1) (Nat.succ_lt_succ hj)
        simpa only [List.getD, List.get?] using this
    simp [List.findIdx_cons, ht, hrec]
  | [], i, hi, _, _ => by simp at hi

theorem getD_append_lt (l r : List ℤ) (j : ℕ) (h : j < l.length) :
    (l ++ r).getD j 0 = l.getD j 0 := by
  simp only [List.getD_eq_get?, List.get?_append h]

theorem getD_replicate_lt (N j : ℕ) (v : ℤ) (h : j < N) :
    (List.replicate N v).getD j 0 = v := by
  simp [List.getD_eq_get?, List.getElem?_replicate, h]

theorem getD_replicate_append_last (N : ℕ) (v w : ℤ) :
    (List.replicate N v ++ [w]).getD N 0 = w := by
  induction N with
  | zero => rfl
  | succ n ih => simpa only [List.replicate, List.cons_append, List.getD] using ih

/-! ### Claim C1 -/

/-- Claim C1 (code bug witness evaluation): a run with the source table
named myevents and destination myevents succeeds, but afterwards the
group holds only the freshly built table (identity 1) under the
destination name: the original source table (identity 0) has been
removed rather than renamed, and no node named _events exists.  The
rename-to-_events branch of _move_results_table_into_destination fires
only when the source is literally named events, contradicting the
preservation requirement (and the comment in _check_destination). -/
theorem claim_C1_source_deleted_eval :
    process_and_store_results (PState.mk [("myevents", 0)] "myevents")
        (some "myevents") false 1 true =
      RunResult.ok (PState.mk [("myevents", 1)] "myevents") ∧
    containsT [("myevents", 1)] "_events" = false ∧
    lookupT [("myevents", 1)] "myevents" = some 1 := by
  refine ⟨by decide, by decide, by decide⟩

/-! ### Claim C7 -/

/-- Claim C7: when process_and_store_results fails before its publish
step (reserved destination name, occupied destination without
overwrite, or a failure during the reconstruction steps 4-5), every
node except the detached staging table _t_events is unchanged - in
particular the source table and any table under the destination name.
Moreover, on a fresh group a first run with destination None succeeds
and a second such run without overwrite fails with the DestinationError
while the table published under the default name is untouched. -/
theorem claim_C7_failure_preserves_tables :
    (∀ (s : PState) (destination : Option String) (overwrite : Bool)
        (freshId : ℕ) (reconOk : Bool) (s2 : PState) (msg : String),
      process_and_store_results s destination overwrite freshId reconOk =
          RunResult.err s2 msg →
      ∀ n, n ≠ "_t_events" → lookupT s2.group n = lookupT s.group n) ∧
    (process_and_store_results (PState.mk [("events", 0)] "events") none false 1 true =
        RunResult.ok (PState.mk [("_events", 0), ("events", 1)] "_events") ∧
      process_and_store_results
          (PState.mk [("_events", 0), ("events", 1)] "_events") none false 2 true =
        RunResult.err (PState.mk [("_events", 0), ("events", 1)] "_events")
          "RuntimeError: I will not overwrite previous results" ∧
      lookupT [("_events", 0), ("events", 1)] "events" = some 1) := by
  constructor
  · intro s destination overwrite freshId reconOk s2 msg h n hn
    simp only [process_and_store_results] at h
    split_ifs at h with h1 h2 h3
    · cases h
      rfl
    · cases h
      rfl
    · cases h
      simp only
      rw [lookupT_createT_ne _ _ _ hn, lookupT_removeNodeT_ne _ _ hn]
  · exact ⟨by decide, by decide, by decide⟩

/-! ### Claim C10 -/

/-- Claim C10: a pipeline constructed without an explicit source name
resolves its source to the reserved _events table whenever that table
exists in the group and to events only otherwise; after a successful
default run the reserved name still holds the original table identity,
so reprocessing reads the preserved original data. -/
theorem claim_C10_source_resolution :
    (∀ g : Group, containsT g "_events" = true → get_source g none = "_events") ∧
    (∀ g : Group, containsT g "_events" = false → get_source g none = "events") ∧
    (process_and_store_results (PState.mk [("events", 42)] "events") none false 7 true =
        RunResult.ok (PState.mk [("_events", 42), ("events", 7)] "_events") ∧
      get_source [("_events", 42), ("events", 7)] none = "_events" ∧
      lookupT [("_events", 42), ("events", 7)] "_events" = some 42) := by
  refine ⟨?_, ?_, by decide, by decide, by decide⟩
  · intro g h
    simp [get_source, h]
  · intro g h
    simp [get_source, h]

/-- Closed instantiation of the universally quantified parts of the C10
theorem at concrete groups. -/
theorem claim_C10_witness :
    get_source [("_events", 3), ("events", 4)] none = "_events" ∧
    get_source [("events", 4)] none = "events" :=
  ⟨claim_C10_source_resolution.1 [("_events", 3), ("events", 4)] (by decide),
   claim_C10_source_resolution.2.1 [("events", 4)] (by decide)⟩

/-- Closed instantiation of the error part of the C7 theorem: a
reconstruction failure on a concrete two-table group leaves the source
and destination entries untouched. -/
theorem claim_C7_witness :
    lookupT (PState.group (PState.mk [("events", 5), ("other", 6), ("_t_events", 9)] "events")) "events" = some 5 ∧
    process_and_store_results (PState.mk [("events", 5), ("other", 6), ("_t_events", 9)] "events")
        (some "other") true 7 false =
      RunResult.err (PState.mk [("events", 5), ("other", 6), ("_t_events", 7)] "events")
        "ReconstructionError" ∧
    lookupT [("events", 5), ("other", 6), ("_t_events", 7)] "events" = some 5 := by
  refine ⟨by decide, by decide, ?_⟩
  have h := claim_C7_failure_preserves_tables.1
    (PState.mk [("events", 5), ("other", 6), ("_t_events", 9)] "events")
    (some "other") true 7 false
    (PState.mk [("events", 5), ("other", 6), ("_t_events", 7)] "events")
    "ReconstructionError" (by decide) "events" (by decide)
  simpa using h

theorem reconstruct_time_eq_some (trace : List ℤ) (baseline : ℤ) (i : ℕ)
    (hi : i < trace.length) (hcross : baseline + 20 ≤ trace.getD i 0)
    (hbefore : ∀ j, j < i → trace.getD j 0 < baseline + 20) :
    reconstruct_time_from_trace trace baseline =
      some ((i : ℚ) * ADC_TIME_PER_SAMPLE) := by
  have hfc : firstCrossing (baseline + ADC_THRESHOLD) trace = some i :=
    firstCrossing_eq_some _ trace i hi hcross hbefore
  simp only [reconstruct_time_from_trace, hfc, Option.map]

/-! ### Claim C4 -/

/-- Claim C4: for every waveform and integer baseline the
nearest-sample strategy returns i * 2.5e-9 seconds where i is the
index of the first sample at or above baseline + 20, and it returns
the not-a-number sentinel (modelled none) when no sample reaches the
threshold; in that case the linear-interpolation strategy returns the
sentinel as well. -/
theorem claim_C4_nearest_sample_spec (trace : List ℤ) (baseline : ℤ) :
    (∀ i, i < trace.length → baseline + 20 ≤ trace.getD i 0 →
      (∀ j, j < i → trace.getD j 0 < baseline + 20) →
      reconstruct_time_from_trace trace baseline =
        some ((i : ℚ) * ADC_TIME_PER_SAMPLE)) ∧
    ((∀ x ∈ trace, x < baseline + 20) →
      reconstruct_time_from_trace trace baseline = none ∧
      reconstruct_time_from_trace_lint trace baseline = none) := by
  constructor
  · exact fun i hi hcross hbefore =>
      reconstruct_time_eq_some trace baseline i hi hcross hbefore
  · intro hall
    have hfc : firstCrossing (baseline + ADC_THRESHOLD) trace = none :=
      firstCrossing_eq_none _ trace hall
    constructor
    · simp only [reconstruct_time_from_trace, hfc, Option.map]
    · simp only [reconstruct_time_from_trace_lint, hfc]

/-- Closed instantiation of C4: a trace crossing at index 1, and a
trace that never crosses. -/
theorem claim_C4_witness :
    reconstruct_time_from_trace [0, 25] 0 = some ((1 : ℚ) * ADC_TIME_PER_SAMPLE) ∧
    (reconstruct_time_from_trace [5] 10 = none ∧
      reconstruct_time_from_trace_lint [5] 10 = none) :=
  ⟨(claim_C4_nearest_sample_spec [0, 25] 0).1 1 (by decide) (by decide)
      (by decide),
   (claim_C4_nearest_sample_spec [5] 10).2 (by decide)⟩

/-! ### Claim C5 -/

unseal Rat.mul Rat.inv Rat.add Rat.sub Rat.ofScientific in
/-- Claim C5: whenever the first threshold crossing is at index i with
1 <= i, the preceding sample strictly below threshold (which the
first-crossing hypothesis already forces) and the crossing sample
strictly above the preceding one, the linear-interpolation arrival
time is at most the nearest-sample arrival time and differs from it by
less than one sample period; and a waveform that is flat below
threshold for N samples and then jumps to twice the threshold gives
the nearest-sample result N * 2.5e-9 exactly. -/
theorem claim_C5_lint_vs_nearest :
    (∀ (trace : List ℤ) (baseline : ℤ) (i : ℕ),
      i < trace.length → 1 ≤ i →
      baseline + 20 ≤ trace.getD i 0 →
      (∀ j, j < i → trace.getD j 0 < baseline + 20) →
      trace.getD (i - 1) 0 < trace.getD i 0 →
      ∃ tl tn : ℚ,
        reconstruct_time_from_trace_lint trace baseline = some tl ∧
        reconstruct_time_from_trace trace baseline = some tn ∧
        tl ≤ tn ∧ tn - tl < ADC_TIME_PER_SAMPLE) ∧
    (∀ (N : ℕ) (baseline v : ℤ), 0 ≤ baseline → v < baseline + 20 →
      reconstruct_time_from_trace
        (List.replicate N v ++ [2 * (baseline + 20)]) baseline =
        some ((N : ℚ) * ADC_TIME_PER_SAMPLE)) := by
  constructor
  · intro trace baseline i hi h1i hcross hbefore hstrict
    have hfc : firstCrossing (baseline + ADC_THRESHOLD) trace = some i :=
      firstCrossing_eq_some _ trace i hi hcross hbefore
    have hi0 : i ≠ 0 := by omega
    have hy0lt : trace.getD (i - 1) 0 < baseline + 20 := hbefore (i - 1) (by omega)
    set q : ℚ := (((baseline + ADC_THRESHOLD : ℤ) : ℚ) - ((trace.getD (i - 1) 0 : ℤ) : ℚ)) /
      (((trace.getD i 0 : ℤ) : ℚ) - ((trace.getD (i - 1) 0 : ℤ) : ℚ)) with hq
    have hT : (0 : ℚ) < ADC_TIME_PER_SAMPLE := by decide
    have hD : (0 : ℚ) < ((trace.getD i 0 : ℤ) : ℚ) - ((trace.getD (i - 1) 0 : ℤ) : ℚ) := by
      have : (trace.getD (i - 1) 0 : ℤ) < trace.getD i 0 := hstrict
      exact sub_pos.mpr (by exact_mod_cast this)
    have hA : (0 : ℚ) < ((baseline + ADC_THRESHOLD : ℤ) : ℚ) - ((trace.getD (i - 1) 0 : ℤ) : ℚ) := by
      have : (trace.getD (i - 1) 0 : ℤ) < baseline + ADC_THRESHOLD := hy0lt
      exact sub_pos.mpr (by exact_mod_cast this)
    have hAD : ((baseline + ADC_THRESHOLD : ℤ) : ℚ) - ((trace.getD (i - 1) 0 : ℤ) : ℚ) ≤
        ((trace.getD i 0 : ℤ) : ℚ) - ((trace.getD (i - 1) 0 : ℤ) : ℚ) := by
      have : (baseline + ADC_THRESHOLD : ℤ) ≤ trace.getD i 0 := hcross
      have hc : ((baseline + ADC_THRESHOLD : ℤ) : ℚ) ≤ ((trace.getD i 0 : ℤ) : ℚ) := by
        exact_mod_cast this
      linarith
    have hq1 : q ≤ 1 := by
      rw [hq]
      exact (div_le_one hD).mpr hAD
    have hq0 : 0 < q := by
      rw [hq]
      exact div_pos hA hD
    refine ⟨(q + ((i : ℚ) - 1)) * ADC_TIME_PER_SAMPLE,
      (i : ℚ) * ADC_TIME_PER_SAMPLE, ?_, ?_, ?_, ?_⟩
    · simp only [reconstruct_time_from_trace_lint, hfc, hi0, if_false, hq]
    · simp only [reconstruct_time_from_trace, hfc, Option.map]
    · have h1 : q + ((i : ℚ) - 1) ≤ (i : ℚ) := by linarith
      exact mul_le_mul_of_nonneg_right h1 hT.le
    · have heq : (i : ℚ) * ADC_TIME_PER_SAMPLE -
          (q + ((i : ℚ) - 1)) * ADC_TIME_PER_SAMPLE = (1 - q) * ADC_TIME_PER_SAMPLE := by
        ring
      rw [heq]
      calc (1 - q) * ADC_TIME_PER_SAMPLE < 1 * ADC_TIME_PER_SAMPLE :=
            mul_lt_mul_of_pos_right (by linarith) hT
        _ = ADC_TIME_PER_SAMPLE := one_mul _
  · intro N baseline v hb hv
    apply reconstruct_time_eq_some _ baseline N
    · simp [List.length_append, List.length_replicate]
    · rw [getD_replicate_append_last]
      omega
    · intro j hj
      rw [getD_append_lt _ _ _ (by simpa using hj), getD_replicate_lt _ _ _ hj]
      exact hv

/-- Closed instantiation of C5: concrete crossing trace and concrete
flat-then-jump trace. -/
theorem claim_C5_witness :
    (∃ tl tn : ℚ,
      reconstruct_time_from_trace_lint [0, 25] 0 = some tl ∧
      reconstruct_time_from_trace [0, 25] 0 = some tn ∧
      tl ≤ tn ∧ tn - tl < ADC_TIME_PER_SAMPLE) ∧
    reconstruct_time_from_trace (List.replicate 2 3 ++ [2 * (0 + 20)]) 0 =
      some ((2 : ℚ) * ADC_TIME_PER_SAMPLE) :=
  ⟨claim_C5_lint_vs_nearest.1 [0, 25] 0 1 (by decide) (by decide) (by decide)
      (by decide) (by decide),
   claim_C5_lint_vs_nearest.2 2 0 3 (by decide) (by decide)⟩

/-! ### Claim C6 -/

/-- Claim C6: the trace decoder turns a decompressed comma-delimited
sequence of decimal integers into the ordered integer sequence,
discarding a single trailing empty field; in particular the blob
decompressing to 12,34,56 with a trailing comma decodes to
[12, 34, 56]. -/
theorem claim_C6_trace_decoder :
    get_trace "12,34,56," = some [12, 34, 56] ∧
    (∀ (s : String) (fields : List (List Char)) (ns : List ℤ),
      splitComma s.data = fields ++ [[]] →
      fields.mapM pyInt = some ns →
      get_trace s = some ns) := by
  constructor
  · decide
  · intro s fields ns hsplit hparse
    unfold get_trace dropTrailingEmpty
    rw [hsplit, List.getLast?_concat]
    simp only [if_true, List.dropLast_concat]
    exact hparse

/-- Closed instantiation of the general part of C6 at a concrete
string. -/
theorem claim_C6_witness : get_trace "7,-8," = some [7, -8] :=
  claim_C6_trace_decoder.2 "7,-8," [['7'], ['-', '8']] [7, -8] (by decide)
    (by decide)

/-! ### Claim C8 -/

unseal Rat.mul Rat.inv Rat.add Rat.sub Rat.ofScientific in
/-- Claim C8 counterexample: an event whose only detector slot has
pulse amplitude 25 (at or above THRESHOLD) and the negative no-trace
sentinel index -1.  The sentinel index is requested from the blob
store, and the decoded waveform at index -1 influences the produced
timings, so the decoder IS invoked with a negative blob index,
refuting the claim that the sentinel is never decoded. -/
theorem claim_C8_counterexample :
    (-1 : ℤ) ∈ requested_trace_indices (HEvent.mk [0] [25] [-1]) ∧
    reconstruct_time_from_traces (fun _ => [100]) (HEvent.mk [0] [25] [-1]) ≠
      reconstruct_time_from_traces (fun _ => []) (HEvent.mk [0] [25] [-1]) := by
  refine ⟨by decide, by decide⟩

/-- Claim C8 amended: the per-event driver guards trace decoding only
on the pulse amplitude: the decoder is consulted exactly on the slots
whose amplitude reaches THRESHOLD (so a below-threshold slot is never
decoded, but a negative sentinel index IS decoded whenever its slot
amplitude reaches THRESHOLD).  Formally, the produced timings depend
on the blob store only through the requested indices. -/
theorem claim_C8_amended (ev : HEvent) (f g : ℤ → List ℤ)
    (h : ∀ i ∈ requested_trace_indices ev, f i = g i) :
    reconstruct_time_from_traces f ev = reconstruct_time_from_traces g ev := by
  unfold reconstruct_time_from_traces
  apply List.map_congr_left
  intro s hs
  by_cases hb : s.2.1 < ADC_THRESHOLD
  · simp only [hb, if_true]
  · have hmem : s.2.2 ∈ requested_trace_indices ev := by
      unfold requested_trace_indices
      exact List.mem_filterMap.mpr ⟨s, hs, by simp [hb]⟩
    simp only [hb, if_false, h s.2.2 hmem]

/-- Closed instantiation of the amended C8: a silent event (amplitude
below THRESHOLD) yields identical timings under two blob stores that
disagree at the sentinel index. -/
theorem claim_C8_amended_witness :
    reconstruct_time_from_traces (fun _ => [999]) (HEvent.mk [0] [5] [-1]) =
      reconstruct_time_from_traces (fun _ => []) (HEvent.mk [0] [5] [-1]) :=
  claim_C8_amended (HEvent.mk [0] [5] [-1]) (fun _ => [999]) (fun _ => [])
    (by decide)

/-! ### Claim C9 -/

theorem getD_take_lt (x : List ℤ) (m j : ℕ) (h : j < m) :
    (x.take m).getD j 0 = x.getD j 0 := by
  simp only [List.getD_eq_get?, List.get?_take h]

/-- Claim C9 counterexample: in the smoothing cut of the peak-window
heuristic, with pulse values 100..190 and constant occurrences, the
smoothed value at index 4 has pulse value 140 above the 120 cut yet is
NOT set to zero (only the single value at the loop exit index 3 is):
the assignment sits outside the scanning loop. -/
theorem claim_C9_counterexample :
    120 < ([100, 110, 120, 130, 140, 150, 160, 170, 180, 190] : List ℤ).getD 4 0 ∧
    (cut_smoothed [100, 110, 120, 130, 140, 150, 160, 170, 180, 190]
        (smooth_forward [5, 5, 5, 5, 5, 5, 5, 5, 5, 5] 5)).getD 4 0 ≠ 0 ∧
    (cut_smoothed [100, 110, 120, 130, 130, 150, 160, 170, 180, 190]
        (smooth_forward [5, 5, 5, 5, 5, 5, 5, 5, 5, 5] 5)).getD 3 0 = 0 := by
  refine ⟨by decide, by decide, by decide⟩

theorem findIdx_eq_length_of_none {p : ℤ → Bool} :
    ∀ l : List ℤ, (∀ j, j < l.length → p (l.getD j 0) = false) →
      l.findIdx p = l.length
  | [], _ => rfl
  | t :: ts, h => by
    have ht : p t = false := by
      have := h 0 (Nat.succ_pos ts.length)
      simpa only [List.getD, List.get?, Option.getD_some] using this
    have hrec : ts.findIdx p = ts.length := by
      apply findIdx_eq_length_of_none ts
      intro j hj
      have := h (j + 1) (Nat.succ_lt_succ hj)
      simpa only [List.getD, List.get?] using this
    simp [List.findIdx_cons, ht, hrec]

/-- Claim C9 amended: after forward-smoothing with the 5-bin moving
average, exactly one smoothed value is set to zero before the
derivative step: the one at the first index whose pulse value exceeds
120 (the python loop breaks there and the dedented assignment zeroes
just that element), or the one at the last smoothed index when no
pulse value in the smoothed range exceeds 120 (the loop then runs out
with its counter on the last index). -/
theorem claim_C9_amended (x y : List ℤ)
    (hlen : (smooth_forward y 5).length ≤ x.length) :
    (∀ i0, i0 < (smooth_forward y 5).length → 120 < x.getD i0 0 →
      (∀ j, j < i0 → x.getD j 0 ≤ 120) →
      cut_smoothed x (smooth_forward y 5) = (smooth_forward y 5).set i0 0) ∧
    ((∀ j, j < (smooth_forward y 5).length → x.getD j 0 ≤ 120) →
      cut_smoothed x (smooth_forward y 5) =
        (smooth_forward y 5).set ((smooth_forward y 5).length - 1) 0) := by
  constructor
  · intro i0 h0 h1 h2
    have hfind : (x.take (smooth_forward y 5).length).findIdx
        (fun v => decide (120 < v)) = i0 := by
      apply findIdx_eq_of_first
      · rw [List.length_take]
        omega
      · rw [getD_take_lt _ _ _ h0]
        simpa using h1
      · intro j hj
        rw [getD_take_lt _ _ _ (by omega)]
        simpa using h2 j hj
    have hne : ¬i0 = (smooth_forward y 5).length := by omega
    simp only [cut_smoothed, hfind, hne, if_false]
  · intro hall
    have hlentake : (x.take (smooth_forward y 5).length).length =
        (smooth_forward y 5).length := by
      rw [List.length_take]
      omega
    have hfind0 : (x.take (smooth_forward y 5).length).findIdx
        (fun v => decide (120 < v)) =
        (x.take (smooth_forward y 5).length).length := by
      apply findIdx_eq_length_of_none
      intro j hj
      rw [hlentake] at hj
      rw [getD_take_lt _ _ _ hj]
      have := hall j hj
      simp only [decide_eq_false_iff_not]
      omega
    have hfind := hfind0.trans hlentake
    simp only [cut_smoothed, hfind, if_true]

/-- Closed instantiation of the amended C9 at concrete lists: one
input whose first pulse value above 120 is at index 0, and one input
with no pulse value above 120 at all, where the last smoothed index is
the one zeroed. -/
theorem claim_C9_amended_witness :
    (cut_smoothed [130, 50] (smooth_forward (List.replicate 7 5) 5) =
      (smooth_forward (List.replicate 7 5) 5).set 0 0) ∧
    (cut_smoothed [50, 60] (smooth_forward (List.replicate 7 5) 5) =
      (smooth_forward (List.replicate 7 5) 5).set 1 0) :=
  ⟨(claim_C9_amended [130, 50] (List.replicate 7 5) (by decide)).1 0 (by decide)
      (by decide) (by decide),
   (claim_C9_amended [50, 60] (List.replicate 7 5) (by decide)).2 (by decide)⟩

/-! ### Claim C3 -/

set_option maxRecDepth 1000000 in
unseal Rat.mul Rat.inv Rat.add Rat.sub Rat.ofScientific in
/-- Claim C3 (code bug evaluation): on a population whose detector-0
peak window has width 30 (at most 40), _pulse_gauss_fit returns - for
EVERY leastsq oracle, which is never consulted - the early tuple
(width, [zeros(3), zeros((3, 3))], -1) instead of the documented
per-detector mpv list: the early return aborts the whole detector
loop, so no fit is recorded for the remaining three detectors and no
per-detector MPV result is produced. -/
theorem claim_C3_narrow_width_early_return (lsq : Lsq) :
    pulse_gauss_fit lsq rowsC3 (npArange 0 5000 10) =
      FitOutcome.earlyNarrow 30 [0, 0, 0] [[0, 0, 0], [0, 0, 0], [0, 0, 0]] (-1) := by
  have hstep : detector_fit_step rowsC3 (npArange 0 5000 10) 0 =
      DetectorFitStep.narrow 30 := by decide
  have hlen : (rowsC3.getD 0 []).length = 4 := by decide
  have hrange : List.range 4 = [0, 1, 2, 3] := by decide
  unfold pulse_gauss_fit
  rw [hlen, hrange]
  simp only [pulse_gauss_fit_go, hstep]

/-- Closed instantiation of the C3 evaluation at a concrete leastsq
oracle. -/
theorem claim_C3_witness :
    pulse_gauss_fit lsqC2 rowsC3 (npArange 0 5000 10) =
      FitOutcome.earlyNarrow 30 [0, 0, 0] [[0, 0, 0], [0, 0, 0], [0, 0, 0]] (-1) :=
  claim_C3_narrow_width_early_return lsqC2

/-! ### Claim C2 -/

theorem setRowT_length : ∀ (tbl : List ResultRow) (j : ℕ) (tv : List ℚ),
    (setRowT tbl j tv).length = tbl.length
  | [], _, _ => rfl
  | _ :: _, 0, _ => rfl
  | r :: rs, j + 1, tv => by
    simp only [setRowT, List.length_cons, setRowT_length rs j tv]

theorem get?_setRowT_self : ∀ (tbl : List ResultRow) (j : ℕ) (tv : List ℚ)
    (r : ResultRow), tbl.get? j = some r →
    (setRowT tbl j tv).get? j = some { r with t := tv }
  | r0 :: rs, 0, tv, r, h => by
    simp only [List.get?] at h
    cases h
    rfl
  | r0 :: rs, j + 1, tv, r, h => by
    simp only [List.get?] at h ⊢
    exact get?_setRowT_self rs j tv r h
  | [], _, _, _, h => by simp at h

theorem get?_setRowT_ne : ∀ (tbl : List ResultRow) (j k : ℕ) (tv : List ℚ),
    k ≠ j → (setRowT tbl j tv).get? k = tbl.get? k
  | [], _, _, _, _ => rfl
  | r :: rs, 0, 0, tv, h => absurd rfl h
  | r :: rs, 0, k + 1, tv, _ => rfl
  | r :: rs, j + 1, 0, tv, _ => rfl
  | r :: rs, j + 1, k + 1, tv, h => by
    simp only [setRowT, List.get?]
    exact get?_setRowT_ne rs j k tv (fun e => h (by omega))

theorem foldl_setRowT_length :
    ∀ (ups : List (ℕ × List ℚ)) (tbl : List ResultRow),
      (ups.foldl (fun t p => setRowT t p.1 p.2) tbl).length = tbl.length
  | [], _ => rfl
  | u :: us, tbl => by
    simp only [List.foldl]
    rw [foldl_setRowT_length us, setRowT_length]

theorem foldl_setRowT_get?_not_mem :
    ∀ (ups : List (ℕ × List ℚ)) (tbl : List ResultRow) (k : ℕ),
      (∀ p ∈ ups, p.1 ≠ k) →
      (ups.foldl (fun t p => setRowT t p.1 p.2) tbl).get? k = tbl.get? k
  | [], _, _, _ => rfl
  | u :: us, tbl, k, h => by
    simp only [List.foldl]
    rw [foldl_setRowT_get?_not_mem us _ k
        (fun p hp => h p (List.mem_cons_of_mem u hp)),
      get?_setRowT_ne _ _ _ _ (fun e => h u (List.mem_cons_self u us) e.symm)]

theorem foldl_setRowT_get_mem (f : ℕ → List ℚ) :
    ∀ (idxs : List ℕ) (tbl : List ResultRow) (k : ℕ) (r : ResultRow),
      k ∈ idxs → tbl.get? k = some r →
      ((idxs.zip (idxs.map f)).foldl (fun t p => setRowT t p.1 p.2) tbl).get? k =
        some { r with t := f k }
  | [], _, _, _, hmem, _ => absurd hmem (List.not_mem_nil _)
  | i :: rest, tbl, k, r, hmem, hget => by
    simp only [List.map, List.zip_cons_cons, List.foldl]
    by_cases hk : k = i
    · subst hk
      have h1 : (setRowT tbl k (f k)).get? k = some { r with t := f k } :=
        get?_setRowT_self tbl k (f k) r hget
      by_cases hkr : k ∈ rest
      · exact foldl_setRowT_get_mem f rest _ k { r with t := f k } hkr h1
      · rw [foldl_setRowT_get?_not_mem _ _ k ?_, h1]
        intro p hp
        have := (List.of_mem_zip hp).1
        intro e
        exact hkr (e ▸ this)
    · have hmem2 : k ∈ rest := by
        rcases List.mem_cons.mp hmem with h | h
        · exact absurd h hk
        · exact h
      refine foldl_setRowT_get_mem f rest _ k r hmem2 ?_
      rw [get?_setRowT_ne _ _ _ _ hk]
      exact hget

theorem get?_pytake {α : Type} (limit : Option ℕ) (l : List α) (j : ℕ) (e : α)
    (h : (pytake limit l).get? j = some e) : l.get? j = some e := by
  cases limit with
  | none => exact h
  | some k =>
    simp only [pytake] at h
    obtain ⟨hlt, -⟩ := List.get?_eq_some.mp h
    rw [List.length_take] at hlt
    have hj : j < k := by omega
    rw [List.get?_take hj] at h
    exact h

theorem process_pulseheights_length (lsq : Lsq) (src : List HEvent)
    (nvals : List (List ℚ))
    (h : process_pulseheights lsq src = some nvals) :
    nvals.length = src.length := by
  simp only [process_pulseheights] at h
  cases hfit : pulse_gauss_fit lsq (src.map fun e => e.pulseheights)
      (npArange 0 5000 10) with
  | mpvs mpv =>
    rw [hfit] at h
    simp only [Option.some.injEq] at h
    rw [← h]
    simp only [List.length_map]
  | earlyNarrow w p c q =>
    rw [hfit] at h
    cases h
  | avgError =>
    rw [hfit] at h
    cases h
  | scanError =>
    rw [hfit] at h
    cases h

/-- Claim C2 amended: index-subset processing produces a results table
with one row per copied source row (NOT one per supplied index), and
for each supplied index the timing columns and the particle-count
columns of that row equal what full processing would have produced for
the source row at that index. -/
theorem claim_C2_amended (lsq : Lsq) (traceOf : ℤ → List ℤ)
    (events : List HEvent) (indexes : List ℕ) (limit : Option ℕ)
    (td nd : List ℚ) (tblF tblI : List ResultRow)
    (hidx : ∀ j ∈ indexes, j < (pytake limit events).length)
    (hF : results_table_full lsq traceOf events limit td nd = some tblF)
    (hI : results_table_indexed lsq traceOf events indexes limit td nd = some tblI) :
    tblI.length = (pytake limit events).length ∧
    ∀ j ∈ indexes,
      (tblI.getD j default).t = (tblF.getD j default).t ∧
      (tblI.getD j default).n = (tblF.getD j default).n := by
  simp only [results_table_full] at hF
  simp only [results_table_indexed] at hI
  cases hP : process_pulseheights lsq (pytake limit events) with
  | none =>
    rw [hP] at hF
    cases hF
  | some nvals =>
    rw [hP] at hF hI
    simp only [Option.map_some', Option.some.injEq] at hF hI
    have hnlen := process_pulseheights_length lsq (pytake limit events) nvals hP
    have hstaglen : ((pytake limit events).map
        (fun e => ResultRow.mk e td nd)).length = (pytake limit events).length :=
      List.length_map _ _
    constructor
    · rw [← hI]
      rw [List.length_zipWith, foldl_setRowT_length, hstaglen, hnlen]
      exact Nat.min_self _
    · intro j hj
      have hjlt := hidx j hj
      obtain ⟨e, he⟩ : ∃ e, (pytake limit events).get? j = some e := by
        cases hsome : (pytake limit events).get? j with
        | none =>
          rw [List.get?_eq_none] at hsome
          omega
        | some e => exact ⟨e, rfl⟩
      obtain ⟨nv, hnv⟩ : ∃ nv, nvals.get? j = some nv := by
        cases hsome : nvals.get? j with
        | none =>
          rw [List.get?_eq_none] at hsome
          omega
        | some nv => exact ⟨nv, rfl⟩
      have hev : events.getD j default = e := by
        have := get?_pytake limit events j e he
        simp only [List.getD_eq_get?, this, Option.getD_some]
      have hstag : ((pytake limit events).map
          (fun e => ResultRow.mk e td nd)).get? j = some (ResultRow.mk e td nd) := by
        rw [List.get?_map, he]
        rfl
      have htim : ((pytake limit events).map (storedTimings traceOf)).get? j =
          some (storedTimings traceOf e) := by
        rw [List.get?_map, he]
        rfl
      have hfull : tblF.get? j =
          some (ResultRow.mk e (storedTimings traceOf e) nv) := by
        rw [← hF]
        exact get?_zipWith_eq_some _ _ _ j _ nv
          (get?_zipWith_eq_some _ _ _ j _ _ hstag htim) hnv
      have hind : tblI.get? j =
          some (ResultRow.mk e (storedTimings traceOf e) nv) := by
        rw [← hI]
        refine get?_zipWith_eq_some _ _ _ j
          (ResultRow.mk e (storedTimings traceOf e) nd) nv ?_ hnv
        have hrow : ResultRow.mk e (storedTimings traceOf e) nd =
            { ResultRow.mk e td nd with
              t := (fun j => storedTimings traceOf (events.getD j default)) j } := by
          show ResultRow.mk e (storedTimings traceOf e) nd =
            ResultRow.mk e (storedTimings traceOf (events.getD j default)) nd
          rw [hev]
        rw [hrow]
        exact foldl_setRowT_get_mem
          (fun j => storedTimings traceOf (events.getD j default)) indexes
          ((pytake limit events).map (fun e => ResultRow.mk e td nd)) j
          (ResultRow.mk e td nd) hj hstag
      rw [List.getD_eq_get?, List.getD_eq_get?, hfull, hind]
      exact ⟨rfl, rfl⟩

set_option maxRecDepth 1000000 in
unseal Rat.mul Rat.inv Rat.add Rat.sub Rat.ofScientific in
/-- Claim C2 counterexample: index-subset processing with indexes
[0, 2, 5] on the 10-row source succeeds and produces a results table
of 10 rows, not the 3 rows the claim demands (the staging table is
created and copied at full source length by the inherited methods;
only the timing columns of the three indexed rows are updated). -/
theorem claim_C2_counterexample :
    (results_table_indexed lsqC2 traceOfC2 eventsC2 [0, 2, 5] none
        [0, 0, 0, 0] [0, 0, 0, 0]).map List.length = some 10 ∧
    (10 : ℕ) ≠ 3 := by
  refine ⟨by decide, by decide⟩

/-- The row values of a full run over the C2 source, computed once for
the witness below. -/
def rowF145 : ResultRow :=
  ResultRow.mk (HEvent.mk [0, 0, 0, 0] [145, 145, 145, 145] [-1, -1, -1, -1])
    [-999, -999, -999, -999] [29 / 32, 29 / 32, 29 / 32, 29 / 32]

def rowF155 : ResultRow :=
  ResultRow.mk (HEvent.mk [0, 0, 0, 0] [155, 155, 155, 155] [-1, -1, -1, -1])
    [-999, -999, -999, -999] [31 / 32, 31 / 32, 31 / 32, 31 / 32]

/-- rowF145 with the timing columns still at their staged defaults. -/
def rowD145 : ResultRow :=
  ResultRow.mk (HEvent.mk [0, 0, 0, 0] [145, 145, 145, 145] [-1, -1, -1, -1])
    [0, 0, 0, 0] [29 / 32, 29 / 32, 29 / 32, 29 / 32]

def rowD155 : ResultRow :=
  ResultRow.mk (HEvent.mk [0, 0, 0, 0] [155, 155, 155, 155] [-1, -1, -1, -1])
    [0, 0, 0, 0] [31 / 32, 31 / 32, 31 / 32, 31 / 32]

def tblFC2 : List ResultRow :=
  [rowF145, rowF145, rowF145, rowF145, rowF145,
   rowF155, rowF155, rowF155, rowF155, rowF155]

def tblIC2 : List ResultRow :=
  [rowF145, rowD145, rowF145, rowD145, rowD145,
   rowF155, rowD155, rowD155, rowD155, rowD155]

set_option maxRecDepth 1000000 in
unseal Rat.mul Rat.inv Rat.add Rat.sub Rat.ofScientific in
/-- Closed instantiation of the amended C2 at the concrete 10-row
source with indexes [0, 2, 5]. -/
theorem claim_C2_amended_witness :
    tblIC2.length = (pytake none eventsC2).length ∧
    ∀ j ∈ [0, 2, 5],
      (tblIC2.getD j default).t = (tblFC2.getD j default).t ∧
      (tblIC2.getD j default).n = (tblFC2.getD j default).n :=
  claim_C2_amended lsqC2 traceOfC2 eventsC2 [0, 2, 5] none [0, 0, 0, 0]
    [0, 0, 0, 0] tblFC2 tblIC2 (by decide) (by decide) (by decide)

end Sapphire
